import Mathlib

/-!
Verification of the octopy geometry / document-model subsystem.

Python strings are modelled as lists of characters (`PStr`), Python ints as
`Int`, floats appearing in the code as exact rationals (`Rat`), and Python
exceptions as an explicit `PyErr` error type threaded through `Except`.
External collaborators (OpenCV, shapely, numpy) are modelled either by their
documented mathematical semantics or as explicit function parameters whose
contracts appear as hypotheses of the theorems.
-/

/-- Python string, modelled as a list of characters. -/
abbrev PStr := List Char

/-- Python exception kinds raised by the code under verification. -/
inductive PyErr where
  | valueError
  | typeError
  | keyError
  | indexError
  | assertionError
deriving DecidableEq, Repr

/-- Model of CPython `str.join` with a one-character separator:
tokens are concatenated with the separator in between. -/
def pyJoin (sep : Char) : List PStr → PStr
  | [] => []
  | [t] => t
  | t :: ts => t ++ sep :: pyJoin sep ts

/-- Model of CPython `str.split(sep)` with an explicit one-character
separator: splits at every occurrence, keeping empty fragments; the split of
the empty string is `[""]`. -/
def pySplit (sep : Char) : PStr → List PStr
  | [] => [[]]
  | c :: cs =>
    match pySplit sep cs with
    | [] => [[c]]
    | t :: ts => if c = sep then [] :: t :: ts else (c :: t) :: ts

theorem pySplit_ne_nil (sep : Char) (s : PStr) : pySplit sep s ≠ [] := by
  cases s with
  | nil => simp [pySplit]
  | cons c cs =>
    simp only [pySplit]
    cases pySplit sep cs with
    | nil => simp
    | cons t ts => by_cases h : c = sep <;> simp [h]

theorem pySplit_single (sep : Char) (t : PStr) (ht : sep ∉ t) :
    pySplit sep t = [t] := by
  induction t with
  | nil => rfl
  | cons c cs ih =>
    simp only [List.mem_cons, not_or] at ht
    simp only [pySplit, ih ht.2]
    have : c ≠ sep := fun h => ht.1 h.symm
    simp [this]

theorem pySplit_append_cons (sep : Char) (t : PStr) (ht : sep ∉ t) (s : PStr) :
    pySplit sep (t ++ sep :: s) = t :: pySplit sep s := by
  induction t with
  | nil =>
    show pySplit sep (sep :: s) = [] :: pySplit sep s
    cases hps : pySplit sep s with
    | nil => exact absurd hps (pySplit_ne_nil sep s)
    | cons q qs => simp [pySplit, hps]
  | cons c cs ih =>
    simp only [List.mem_cons, not_or] at ht
    have hc : ¬c = sep := fun h => ht.1 h.symm
    have hrec := ih ht.2
    show pySplit sep (c :: (cs ++ sep :: s)) = (c :: cs) :: pySplit sep s
    cases hps : pySplit sep s with
    | nil => exact absurd hps (pySplit_ne_nil sep s)
    | cons q qs =>
      rw [hps] at hrec
      simp [pySplit, hrec, hc]

theorem pySplit_pyJoin (sep : Char) (ts : List PStr) (hne : ts ≠ [])
    (hsep : ∀ t ∈ ts, sep ∉ t) : pySplit sep (pyJoin sep ts) = ts := by
  induction ts with
  | nil => exact absurd rfl hne
  | cons t ts ih =>
    cases ts with
    | nil => exact pySplit_single sep t (hsep t (by simp))
    | cons u us =>
      have hjoin : pyJoin sep (t :: u :: us) = t ++ sep :: pyJoin sep (u :: us) := rfl
      rw [hjoin, pySplit_append_cons sep t (hsep t (by simp)),
        ih (by simp) (fun x hx => hsep x (by simp [hx]))]

/-- Decimal digit character for a digit value 0–9 (the shape produced by
CPython `str` formatting of integers). -/
def digitCh (d : Nat) : Char :=
  match d with
  | 0 => '0' | 1 => '1' | 2 => '2' | 3 => '3' | 4 => '4'
  | 5 => '5' | 6 => '6' | 7 => '7' | 8 => '8' | _ => '9'

/-- Digit value of a character, `none` when the character is not `0`–`9`.
Models the per-character acceptance of CPython `int()`. -/
def chDigit? (c : Char) : Option Nat :=
  if 48 ≤ c.toNat ∧ c.toNat ≤ 57 then some (c.toNat - 48) else none

theorem chDigit?_digitCh (d : Nat) (hd : d < 10) : chDigit? (digitCh d) = some d := by
  interval_cases d <;> rfl

/-- Decimal character representation of a natural number, most significant
digit first, as produced by CPython `f"{n}"`. -/
def natToChars (n : Nat) : PStr :=
  if n = 0 then ['0'] else ((Nat.digits 10 n).reverse.map digitCh)

/-- Decimal character representation of a Python int, `-` sign for negative
values, as produced by CPython `f"{x}"`. -/
def intToChars (x : Int) : PStr :=
  if x < 0 then '-' :: natToChars x.natAbs else natToChars x.toNat

/-- Parse an unsigned decimal digit string (nonempty, digits only), the
digits-consuming core of CPython `int()`. -/
def parseDigits (s : PStr) : Option Nat :=
  match s with
  | [] => none
  | _ => (s.mapM chDigit?).map (List.foldl (fun a d => a * 10 + d) 0)

/-- Model of CPython `int(str)` on already-stripped input: an optional sign
followed by at least one decimal digit. -/
def pyInt (s : PStr) : Option Int :=
  match s with
  | [] => none
  | c :: rest =>
    if c = '-' then (parseDigits rest).map (fun n : Nat => -(n : Int))
    else if c = '+' then (parseDigits rest).map (fun n : Nat => (n : Int))
    else (parseDigits (c :: rest)).map (fun n : Nat => (n : Int))

theorem natToChars_ne_nil (n : Nat) : natToChars n ≠ [] := by
  unfold natToChars
  by_cases h : n = 0
  · simp [h]
  · simp only [h, if_false]
    intro hcon
    have hd := (Nat.digits_ne_nil_iff_ne_zero (b := 10)).mpr h
    simp at hcon
    exact hd hcon

theorem mem_natToChars_digit (n : Nat) (c : Char) (hc : c ∈ natToChars n) :
    ∃ d, d < 10 ∧ c = digitCh d := by
  unfold natToChars at hc
  by_cases h : n = 0
  · simp [h] at hc
    exact ⟨0, by omega, hc⟩
  · simp only [h, if_false, List.mem_map, List.mem_reverse] at hc
    obtain ⟨d, hd, rfl⟩ := hc
    exact ⟨d, Nat.digits_lt_base (by omega) hd, rfl⟩

theorem digitCh_ne_sep (d : Nat) (hd : d < 10) (c : Char)
    (hc : c = ' ' ∨ c = ',' ∨ c = '-' ∨ c = '+') : digitCh d ≠ c := by
  interval_cases d <;> rcases hc with rfl | rfl | rfl | rfl <;> decide

theorem mem_natToChars_ne (n : Nat) (c : Char)
    (hc : c = ' ' ∨ c = ',' ∨ c = '-' ∨ c = '+') : c ∉ natToChars n := by
  intro hmem
  obtain ⟨d, hd, rfl⟩ := mem_natToChars_digit n c hmem
  exact digitCh_ne_sep d hd (digitCh d) hc rfl

theorem mem_intToChars_ne (x : Int) (c : Char) (hc : c = ' ' ∨ c = ',') :
    c ∉ intToChars x := by
  unfold intToChars
  by_cases h : x < 0
  · simp only [h, if_true, List.mem_cons, not_or]
    constructor
    · rcases hc with rfl | rfl <;> decide
    · exact mem_natToChars_ne _ _ (by tauto)
  · simp only [h, if_false]
    exact mem_natToChars_ne _ _ (by tauto)

theorem foldl_reverse_ofDigits (l : List Nat) (a : Nat) :
    List.foldl (fun x d => x * 10 + d) a l.reverse =
      a * 10 ^ l.length + Nat.ofDigits 10 l := by
  induction l generalizing a with
  | nil => simp
  | cons d l ih =>
    rw [List.reverse_cons, List.foldl_append, ih]
    simp [Nat.ofDigits_cons, pow_succ]
    ring

theorem mapM_chDigit_digitCh (l : List Nat) (h : ∀ d ∈ l, d < 10) :
    (l.map digitCh).mapM chDigit? = some l := by
  induction l with
  | nil => rfl
  | cons d l ih =>
    rw [List.map_cons, List.mapM_cons, chDigit?_digitCh d (h d (by simp)),
      ih (fun x hx => h x (by simp [hx]))]
    rfl

theorem parseDigits_eq_of_ne_nil (s : PStr) (h : s ≠ []) :
    parseDigits s = (s.mapM chDigit?).map (List.foldl (fun a d => a * 10 + d) 0) := by
  cases s with
  | nil => exact absurd rfl h
  | cons c cs => rfl

theorem mapM_chDigit_replicate_zero (k : Nat) :
    (List.replicate k '0').mapM chDigit? = some (List.replicate k 0) := by
  induction k with
  | zero => rfl
  | succ k ihk => rw [List.replicate_succ, List.mapM_cons, ihk]; rfl

theorem foldl_replicate_zero (m : Nat) :
    List.foldl (fun x d => x * 10 + d) 0 (List.replicate m 0) = 0 := by
  induction m with
  | zero => rfl
  | succ m ihm => rw [List.replicate_succ']; simp [List.foldl_append, ihm]

theorem parseDigits_replicate_natToChars (k n : Nat) :
    parseDigits (List.replicate k '0' ++ natToChars n) = some n := by
  have hne : List.replicate k '0' ++ natToChars n ≠ [] := by
    simp [natToChars_ne_nil n]
  rw [parseDigits_eq_of_ne_nil _ hne]
  unfold natToChars
  by_cases h0 : n = 0
  · subst h0
    simp only [if_true]
    have hrep : (List.replicate k '0' ++ ['0']) = List.replicate (k + 1) '0' := by
      rw [List.replicate_succ']
    rw [hrep, mapM_chDigit_replicate_zero]
    simp [foldl_replicate_zero]
  · simp only [h0, if_false]
    rw [List.mapM_append, mapM_chDigit_replicate_zero, mapM_chDigit_digitCh _
      (fun d hd => Nat.digits_lt_base (by omega) (List.mem_reverse.mp hd))]
    have hfold : List.foldl (fun a d => a * 10 + d) 0
        (List.replicate k 0 ++ (Nat.digits 10 n).reverse) = n := by
      rw [List.foldl_append, foldl_replicate_zero, foldl_reverse_ofDigits]
      simp [Nat.ofDigits_digits]
    show some (List.foldl (fun a d => a * 10 + d) 0
        (List.replicate k 0 ++ (Nat.digits 10 n).reverse)) = some n
    rw [hfold]

theorem parseDigits_natToChars (n : Nat) : parseDigits (natToChars n) = some n := by
  have := parseDigits_replicate_natToChars 0 n
  simpa using this

theorem natToChars_head_not_sign (n : Nat) (c : Char) (cs : PStr)
    (h : natToChars n = c :: cs) : ¬c = '-' ∧ ¬c = '+' := by
  have hc : c ∈ natToChars n := by rw [h]; simp
  constructor
  · intro hcon; exact mem_natToChars_ne n c (by tauto) (hcon ▸ hc)
  · intro hcon; exact mem_natToChars_ne n c (by tauto) (hcon ▸ hc)

theorem pyInt_intToChars (x : Int) : pyInt (intToChars x) = some x := by
  unfold intToChars
  by_cases hx : x < 0
  · simp only [hx, if_true]
    have hred : pyInt ('-' :: natToChars x.natAbs) =
        (parseDigits (natToChars x.natAbs)).map (fun n : Nat => -(n : Int)) := by
      simp [pyInt]
    rw [hred, parseDigits_natToChars, Option.map_some']
    congr 1
    omega
  · simp only [hx, if_false]
    obtain ⟨c, cs, hnc⟩ : ∃ c cs, natToChars x.toNat = c :: cs := by
      cases h : natToChars x.toNat with
      | nil => exact absurd h (natToChars_ne_nil _)
      | cons c cs => exact ⟨c, cs, rfl⟩
    obtain ⟨hm, hp⟩ := natToChars_head_not_sign _ _ _ hnc
    have hred : pyInt (c :: cs) =
        (parseDigits (c :: cs)).map (fun n : Nat => (n : Int)) := by
      simp [pyInt, hm, hp]
    rw [hnc, hred, ← hnc, parseDigits_natToChars, Option.map_some']
    congr 1
    omega

/-!
Geometry primitives of the pagexml package (pagexml/geometry/point.py and
pagexml/geometry/polygon.py). A Point is an integer coordinate pair, a
Polygon an ordered list of points.
-/

/-- Embedding of Point.to_string: the string x,y (point.py). -/
def pointToString (p : Int × Int) : PStr :=
  intToChars p.1 ++ ',' :: intToChars p.2

/-- Embedding of Point.from_string: split on the comma and destructure into
exactly two ints; any other shape raises ValueError in the source
(point.py), modelled as none. -/
def pointFromString (s : PStr) : Option (Int × Int) :=
  match pySplit ',' s with
  | [a, b] =>
    match pyInt a, pyInt b with
    | some x, some y => some (x, y)
    | _, _ => none
  | _ => none

/-- Embedding of Polygon.to_page_coords: space-joined point strings
(polygon.py). -/
def toPageCoords (ps : List (Int × Int)) : PStr :=
  pyJoin ' ' (ps.map pointToString)

/-- Embedding of Polygon.from_page_coords: split the coords string on
spaces and parse each fragment as a point (polygon.py). -/
def fromPageCoords (s : PStr) : Option (List (Int × Int)) :=
  (pySplit ' ' s).mapM pointFromString

theorem space_not_mem_pointToString (p : Int × Int) : ' ' ∉ pointToString p := by
  unfold pointToString
  intro hmem
  rcases List.mem_append.mp hmem with h | h
  · exact mem_intToChars_ne p.1 ' ' (by tauto) h
  · rcases List.mem_cons.mp h with h | h
    · exact absurd h (by decide)
    · exact mem_intToChars_ne p.2 ' ' (by tauto) h

theorem pointFromString_pointToString (p : Int × Int) :
    pointFromString (pointToString p) = some p := by
  unfold pointFromString pointToString
  rw [pySplit_append_cons ',' _ (mem_intToChars_ne p.1 ',' (by tauto)),
    pySplit_single ',' _ (mem_intToChars_ne p.2 ',' (by tauto))]
  show (match pyInt (intToChars p.1), pyInt (intToChars p.2) with
    | some x, some y => some (x, y)
    | _, _ => none) = some p
  rw [pyInt_intToChars p.1, pyInt_intToChars p.2]

/-- C5. For every Polygon whose points are integer coordinate pairs,
parsing the serialized coordinate string (space-separated x,y pairs)
yields exactly the same point sequence, in the same order
(Polygon.from_page_coords after Polygon.to_page_coords). -/
theorem C5_parse_serialize_roundtrip (ps : List (Int × Int)) (hne : ps ≠ []) :
    fromPageCoords (toPageCoords ps) = some ps := by
  unfold fromPageCoords toPageCoords
  rw [pySplit_pyJoin ' ' (ps.map pointToString) (by simpa using hne)
    (fun t ht => by
      obtain ⟨p, _, rfl⟩ := List.mem_map.mp ht
      exact space_not_mem_pointToString p)]
  induction ps with
  | nil => rfl
  | cons p ps ih =>
    rw [List.map_cons, List.mapM_cons, pointFromString_pointToString p]
    cases hps : ps with
    | nil => rfl
    | cons q qs =>
      rw [← hps]
      have hrec := ih (by simp [hps])
      rw [hrec]
      rfl

/-- Witness for C5 at a concrete polygon with mixed-sign coordinates. -/
theorem C5_witness :
    ([((0 : Int), (0 : Int)), (10, 0), (-3, 5)] ≠ []) ∧
      fromPageCoords (toPageCoords [((0 : Int), (0 : Int)), (10, 0), (-3, 5)]) =
        some [((0 : Int), (0 : Int)), (10, 0), (-3, 5)] :=
  ⟨by decide, C5_parse_serialize_roundtrip _ (by decide)⟩

/-- Model of CPython round() on an exact rational: round half to even. -/
def pyRound (q : Rat) : Int :=
  if q - ⌊q⌋ < 1/2 then ⌊q⌋
  else if 1/2 < q - ⌊q⌋ then ⌊q⌋ + 1
  else if Even ⌊q⌋ then ⌊q⌋ else ⌊q⌋ + 1

theorem pyRound_le (q : Rat) : (pyRound q : Rat) ≤ q + 1/2 := by
  unfold pyRound
  have h1 : (⌊q⌋ : Rat) ≤ q := Int.floor_le q
  have h2 : q < ⌊q⌋ + 1 := Int.lt_floor_add_one q
  split
  · linarith
  · split
    · push_cast
      linarith
    · split
      · linarith
      · push_cast
        linarith

theorem le_pyRound (q : Rat) : q - 1/2 ≤ (pyRound q : Rat) := by
  unfold pyRound
  have h1 : (⌊q⌋ : Rat) ≤ q := Int.floor_le q
  have h2 : q < ⌊q⌋ + 1 := Int.lt_floor_add_one q
  split
  · linarith
  · split
    · push_cast
      linarith
    · split
      · linarith
      · push_cast
        linarith

/-- Closed ring edges of a polygon: consecutive vertex pairs, with a final
edge from the last vertex back to the first (shapely closes the ring). -/
def ringEdges (vs : List (Int × Int)) : List ((Int × Int) × (Int × Int)) :=
  match vs with
  | [] => []
  | v :: _ => vs.zip (vs.tail ++ [v])

/-- Twice the signed shoelace area of the closed ring, exact rational. -/
def shoelace2 (vs : List (Int × Int)) : Rat :=
  ((ringEdges vs).map
    (fun e => ((e.1.1 : Rat) * e.2.2 - (e.2.1 : Rat) * e.1.2))).sum

/-- Exact area-weighted centroid of a polygon ring (the signed-area shoelace
formula computed by GEOS for areal geometries, which shapely `centroid`
exposes). A degenerate ring with zero signed area, where GEOS falls back to
a boundary-length-weighted centroid, is modelled as `none`; no claim
exercises that case. -/
def centroidRat (vs : List (Int × Int)) : Option (Rat × Rat) :=
  if shoelace2 vs = 0 then none
  else some
    (((ringEdges vs).map (fun e =>
        ((e.1.1 : Rat) + e.2.1) * ((e.1.1 : Rat) * e.2.2 - (e.2.1 : Rat) * e.1.2))).sum
        / (3 * shoelace2 vs),
     ((ringEdges vs).map (fun e =>
        ((e.1.2 : Rat) + e.2.2) * ((e.1.1 : Rat) * e.2.2 - (e.2.1 : Rat) * e.1.2))).sum
        / (3 * shoelace2 vs))

/-- Embedding of Polygon.center (polygon.py): the shapely centroid of the
polygon, each coordinate rounded with Python round(). -/
def center (vs : List (Int × Int)) : Option (Int × Int) :=
  (centroidRat vs).map (fun c => (pyRound c.1, pyRound c.2))

/-- Point-on-closed-segment test with exact integer arithmetic. -/
def onSegB (a b p : Int × Int) : Bool :=
  decide ((b.1 - a.1) * (p.2 - a.2) - (p.1 - a.1) * (b.2 - a.2) = 0 ∧
    min a.1 b.1 ≤ p.1 ∧ p.1 ≤ max a.1 b.1 ∧
    min a.2 b.2 ≤ p.2 ∧ p.2 ≤ max a.2 b.2)

/-- One step of the standard even-odd ray casting rule (ray towards +x,
half-open in y), with exact integer cross products. -/
def crossesB (p : Int × Int) (e : (Int × Int) × (Int × Int)) : Bool :=
  (decide (p.2 < e.1.2) != decide (p.2 < e.2.2)) &&
    (if e.1.2 < e.2.2
     then decide (0 < (e.2.1 - e.1.1) * (p.2 - e.1.2) - (p.1 - e.1.1) * (e.2.2 - e.1.2))
     else decide ((e.2.1 - e.1.1) * (p.2 - e.1.2) - (p.1 - e.1.1) * (e.2.2 - e.1.2) < 0))

/-- Embedding of Polygon.contains (polygon.py): shapely `contains`, i.e. the
point lies in the interior of the polygon — boundary points are NOT
contained. Modelled for simple rings as: not on any edge, and odd
crossing parity of a ray towards +x. -/
def polyContains (vs : List (Int × Int)) (p : Int × Int) : Bool :=
  if vs.length < 3 then false
  else if (ringEdges vs).any (fun e => onSegB e.1 e.2 p) then false
  else decide ((ringEdges vs).countP (fun e => crossesB p e) % 2 = 1)

/-- Cyclic triples of consecutive vertices of a ring. -/
def ringTriples (vs : List (Int × Int)) : List ((Int × Int) × (Int × Int) × (Int × Int)) :=
  match vs with
  | [] => []
  | _ :: _ =>
    let r1 := vs.tail ++ vs.take 1
    let r2 := r1.tail ++ r1.take 1
    vs.zip (r1.zip r2)

/-- Z component of the cross product of the edges a→b and b→c. -/
def crossZ (a b c : Int × Int) : Int :=
  (b.1 - a.1) * (c.2 - b.2) - (b.2 - a.2) * (c.1 - b.1)

/-- Convexity of a vertex ring: all consecutive turns have the same sign. -/
def isConvexB (vs : List (Int × Int)) : Bool :=
  ((ringTriples vs).all (fun t => decide (0 ≤ crossZ t.1 t.2.1 t.2.2))) ||
    ((ringTriples vs).all (fun t => decide (crossZ t.1 t.2.1 t.2.2 ≤ 0)))

/-- Embedding of Polygon.from_bbox (polygon.py): the axis-aligned rectangle
with corner (x, y), width w and height h. -/
def fromBbox (x y w h : Int) : List (Int × Int) :=
  [(x, y), (x + w, y), (x + w, y + h), (x, y + h)]

theorem shoelace2_fromBbox (x y w h : Int) :
    shoelace2 (fromBbox x y w h) = 2 * (w : Rat) * h := by
  simp [shoelace2, ringEdges, fromBbox]
  ring

theorem centroidRat_fromBbox (x y w h : Int) (hw : 0 < w) (hh : 0 < h) :
    centroidRat (fromBbox x y w h) =
      some ((x : Rat) + (w : Rat) / 2, (y : Rat) + (h : Rat) / 2) := by
  have hwq : (0 : Rat) < (w : Rat) := by exact_mod_cast hw
  have hhq : (0 : Rat) < (h : Rat) := by exact_mod_cast hh
  have hne : shoelace2 (fromBbox x y w h) ≠ 0 := by
    rw [shoelace2_fromBbox]
    positivity
  unfold centroidRat
  rw [if_neg hne, shoelace2_fromBbox]
  congr 1
  have h6 : (3 : Rat) * (2 * (w : Rat) * h) ≠ 0 := by positivity
  refine Prod.ext ?_ ?_
  · show ((ringEdges (fromBbox x y w h)).map _).sum / (3 * (2 * (w : Rat) * h)) =
      (x : Rat) + (w : Rat) / 2
    rw [div_eq_iff h6]
    simp [ringEdges, fromBbox]
    ring
  · show ((ringEdges (fromBbox x y w h)).map _).sum / (3 * (2 * (w : Rat) * h)) =
      (y : Rat) + (h : Rat) / 2
    rw [div_eq_iff h6]
    simp [ringEdges, fromBbox]
    ring

theorem polyContains_rect (x y w h px py : Int) (hw : 0 < w) (hh : 0 < h)
    (h1 : x < px) (h2 : px < x + w) (h3 : y < py) (h4 : py < y + h) :
    polyContains (fromBbox x y w h) (px, py) = true := by
  have hedges : ringEdges (fromBbox x y w h) =
      [((x, y), (x + w, y)), ((x + w, y), (x + w, y + h)),
       ((x + w, y + h), (x, y + h)), ((x, y + h), (x, y))] := rfl
  have hlen : ¬(fromBbox x y w h).length < 3 := by simp [fromBbox]
  have hp1 : 0 < w * (py - y) := mul_pos hw (by omega)
  have hp2 : 0 < (x + w - px) * h := mul_pos (by omega) hh
  have hp3 : 0 < w * (y + h - py) := mul_pos hw (by omega)
  have hp4 : 0 < (px - x) * h := mul_pos (by omega) hh
  have s1 : onSegB (x, y) (x + w, y) (px, py) = false := by
    simp only [onSegB, decide_eq_false_iff_not]
    rintro ⟨hc, -⟩
    nlinarith
  have s2 : onSegB (x + w, y) (x + w, y + h) (px, py) = false := by
    simp only [onSegB, decide_eq_false_iff_not]
    rintro ⟨hc, -⟩
    nlinarith
  have s3 : onSegB (x + w, y + h) (x, y + h) (px, py) = false := by
    simp only [onSegB, decide_eq_false_iff_not]
    rintro ⟨hc, -⟩
    nlinarith
  have s4 : onSegB (x, y + h) (x, y) (px, py) = false := by
    simp only [onSegB, decide_eq_false_iff_not]
    rintro ⟨hc, -⟩
    nlinarith
  have c1 : crossesB (px, py) ((x, y), (x + w, y)) = false := by
    simp [crossesB]
  have c2 : crossesB (px, py) ((x + w, y), (x + w, y + h)) = true := by
    simp only [crossesB]
    have hy1 : decide (py < y) = false := by simp; omega
    have hy2 : decide (py < y + h) = true := by simp; omega
    rw [hy1, hy2, if_pos (by omega : y < y + h)]
    simp only [Bool.and_eq_true, bne_iff_ne, decide_eq_true_eq]
    constructor
    · simp
    · nlinarith
  have c3 : crossesB (px, py) ((x + w, y + h), (x, y + h)) = false := by
    simp [crossesB]
  have c4 : crossesB (px, py) ((x, y + h), (x, y)) = false := by
    simp only [crossesB]
    have hy1 : decide (py < y + h) = true := by simp; omega
    have hy2 : decide (py < y) = false := by simp; omega
    rw [hy1, hy2, if_neg (by omega : ¬(y + h < y))]
    simp only [Bool.and_eq_false_iff, decide_eq_false_iff_not]
    right
    intro hcon
    nlinarith
  unfold polyContains
  rw [if_neg hlen, hedges]
  rw [List.any_cons, List.any_cons, List.any_cons, List.any_cons, List.any_nil]
  rw [s1, s2, s3, s4]
  simp only [Bool.or_self, Bool.or_false, Bool.false_or, if_false]
  rw [List.countP_cons, List.countP_cons, List.countP_cons, List.countP_cons,
    List.countP_nil]
  rw [c1, c2, c3, c4]
  simp

theorem isConvexB_fromBbox (x y w h : Int) (hwh : 0 ≤ w * h) :
    isConvexB (fromBbox x y w h) = true := by
  have htr : (ringTriples (fromBbox x y w h)).all
      (fun t => decide (0 ≤ crossZ t.1 t.2.1 t.2.2)) = true := by
    simp [ringTriples, fromBbox, crossZ]
    refine ⟨by nlinarith, by nlinarith, by nlinarith, by nlinarith⟩
  unfold isConvexB
  rw [htr]
  simp

/-- Counterexample to C6 as stated: the convex triangle (0,0),(2,0),(0,2)
has exact centroid (2/3, 2/3); Polygon.center rounds it to (1,1), which
lies on the hypotenuse, and shapely contains excludes the boundary, so
P.contains(P.centroid()) is false. -/
theorem C6_counterexample :
    isConvexB [((0 : Int), (0 : Int)), (2, 0), (0, 2)] = true ∧
      3 ≤ ([((0 : Int), (0 : Int)), (2, 0), (0, 2)] : List (Int × Int)).length ∧
      center [((0 : Int), (0 : Int)), (2, 0), (0, 2)] = some (1, 1) ∧
      polyContains [((0 : Int), (0 : Int)), (2, 0), (0, 2)] (1, 1) = false := by
  refine ⟨by decide, by decide, ?_, by decide⟩
  have hsh : shoelace2 [((0 : Int), (0 : Int)), (2, 0), (0, 2)] = 4 := by
    simp [shoelace2, ringEdges]
    norm_num
  unfold center centroidRat
  rw [hsh]
  have hfr : Int.fract ((2 : Rat) / 3) = 2 / 3 := by
    rw [Int.fract]
    norm_num
  norm_num [ringEdges, pyRound, hfr]

/-- C6 (amended). Polygon.center rounds the exact centroid to integer
coordinates and Polygon.contains (shapely) excludes the boundary, so the
containment invariant can fail for small convex polygons; it does hold for
every axis-aligned rectangle (Polygon.from_bbox) with both sides at least
2, whose rounded centroid stays strictly interior. -/
theorem C6_convex_centroid_contained_rect (x y w h : Int) (hw : 2 ≤ w) (hh : 2 ≤ h) :
    isConvexB (fromBbox x y w h) = true ∧
      ∃ c, center (fromBbox x y w h) = some c ∧
        polyContains (fromBbox x y w h) c = true := by
  refine ⟨isConvexB_fromBbox x y w h (by nlinarith), ?_⟩
  rw [center, centroidRat_fromBbox x y w h (by omega) (by omega)]
  refine ⟨(pyRound ((x : Rat) + (w : Rat) / 2), pyRound ((y : Rat) + (h : Rat) / 2)),
    rfl, ?_⟩
  have hwq : (2 : Rat) ≤ (w : Rat) := by exact_mod_cast hw
  have hhq : (2 : Rat) ≤ (h : Rat) := by exact_mod_cast hh
  have hx1 := le_pyRound ((x : Rat) + (w : Rat) / 2)
  have hx2 := pyRound_le ((x : Rat) + (w : Rat) / 2)
  have hy1 := le_pyRound ((y : Rat) + (h : Rat) / 2)
  have hy2 := pyRound_le ((y : Rat) + (h : Rat) / 2)
  apply polyContains_rect x y w h _ _ (by omega) (by omega)
  · have : (x : Rat) < (pyRound ((x : Rat) + (w : Rat) / 2) : Rat) := by linarith
    exact_mod_cast this
  · have : (pyRound ((x : Rat) + (w : Rat) / 2) : Rat) < (x : Rat) + (w : Rat) := by
      linarith
    exact_mod_cast this
  · have : (y : Rat) < (pyRound ((y : Rat) + (h : Rat) / 2) : Rat) := by linarith
    exact_mod_cast this
  · have : (pyRound ((y : Rat) + (h : Rat) / 2) : Rat) < (y : Rat) + (h : Rat) := by
      linarith
    exact_mod_cast this

/-- Witness for the amended C6 at the concrete rectangle (0,0) 2 by 2. -/
theorem C6_witness :
    isConvexB (fromBbox 0 0 2 2) = true ∧
      ∃ c, center (fromBbox 0 0 2 2) = some c ∧
        polyContains (fromBbox 0 0 2 2) c = true :=
  C6_convex_centroid_contained_rect 0 0 2 2 (by decide) (by decide)

/-!
Segmentation-result adapter, legacy path (modules/bls.py `_kraken_parser`):
regions are built from the kraken result in input order, then each line is
attached to the first region whose polygon contains the centroid of the
line's boundary polygon.
-/

/-- Integer shoelace sum of a ring (used to phrase non-degeneracy
hypotheses decidably). -/
def shoelaceZ (vs : List (Int × Int)) : Int :=
  ((ringEdges vs).map (fun e => e.1.1 * e.2.2 - e.2.1 * e.1.2)).sum

theorem shoelace2_eq_cast (vs : List (Int × Int)) :
    shoelace2 vs = ((shoelaceZ vs : Int) : Rat) := by
  unfold shoelace2 shoelaceZ
  generalize ringEdges vs = es
  induction es with
  | nil => simp
  | cons e es ih =>
    simp only [List.map_cons, List.sum_cons, ih]
    push_cast
    ring

theorem center_isSome_of_shoelaceZ (vs : List (Int × Int)) (h : shoelaceZ vs ≠ 0) :
    ∃ c, center vs = some c := by
  unfold center centroidRat
  rw [shoelace2_eq_cast]
  rw [if_neg (by exact_mod_cast h)]
  exact ⟨_, rfl⟩

/-- A kraken line record: baseline polyline and boundary polygon (already
converted to point lists, as Polygon.from_kraken_coords does). -/
structure KrakenLine where
  baseline : List (Int × Int)
  boundary : List (Int × Int)
deriving DecidableEq, Repr

/-- One region entry of the parsed kraken result: document type string,
boundary polygon, attached lines (bls.py builds dicts with these keys). -/
structure BlsRegion where
  rtype : String
  coords : List (Int × Int)
  lines : List KrakenLine
deriving DecidableEq, Repr

/-- The fixed region-class list of modules/bls.py. -/
def REGION_TYPES : List String :=
  ["paragraph", "heading", "caption", "header", "footer", "page-number",
   "drop-capital", "credit", "floating", "signature-mark", "catch-word",
   "marginalia", "footnote", "footnote-continued", "endnote", "TOC-entry",
   "list-label", "other"]

/-- Class-name normalization of `_kraken_parser`: lower-case the class and
replace anything outside REGION_TYPES with "other". -/
def normalizeRegionType (t : String) : String :=
  if REGION_TYPES.contains t.toLower then t.toLower else "other"

/-- Region construction loop of `_kraken_parser`: one region per polygon,
in the order classes and polygons appear in the kraken result, with an
empty line list. -/
def buildRegions (classData : List (String × List (List (Int × Int)))) :
    List BlsRegion :=
  classData.flatMap (fun cd => cd.2.map (fun coords =>
    { rtype := normalizeRegionType cd.1, coords := coords, lines := [] }))

/-- First index of a list satisfying a predicate. -/
def findFirstIdx (p : α → Bool) : List α → Option Nat
  | [] => none
  | x :: xs => if p x then some 0 else (findFirstIdx p xs).map (· + 1)

/-- Index of the region a line is assigned to: the first region polygon
containing the rounded centroid of the line boundary, none when the
centroid is undefined or no region contains it. -/
def assignedTo (polys : List (List (Int × Int))) (l : KrakenLine) : Option Nat :=
  match center l.boundary with
  | none => none
  | some c => findFirstIdx (fun poly => polyContains poly c) polys

/-- Inner region loop of `_kraken_parser` for one line: walk the regions in
creation order, append the line to the first whose polygon contains the
boundary centroid, and stop (break). The centroid is recomputed per
containment test, so for a degenerate boundary the first test raises
(modelled: error when at least one region exists). -/
def assignLine (regions : List BlsRegion) (l : KrakenLine) :
    Except PyErr (List BlsRegion) :=
  match regions with
  | [] => .ok []
  | r :: rest =>
    match center l.boundary with
    | none => .error .valueError
    | some c =>
      if polyContains r.coords c then
        .ok ({ r with lines := r.lines ++ [l] } :: rest)
      else
        match assignLine rest l with
        | .ok rest2 => .ok (r :: rest2)
        | .error e => .error e

/-- Line loop of `_kraken_parser`: lines are processed in order. -/
def assignLines (regions : List BlsRegion) (ls : List KrakenLine) :
    Except PyErr (List BlsRegion) :=
  match ls with
  | [] => .ok regions
  | l :: ls =>
    match assignLine regions l with
    | .ok regions2 => assignLines regions2 ls
    | .error e => .error e

/-- Embedding of `_kraken_parser` (modules/bls.py): build regions from the
class mapping, then attach lines. -/
def krakenParser (classData : List (String × List (List (Int × Int))))
    (ls : List KrakenLine) : Except PyErr (List BlsRegion) :=
  assignLines (buildRegions classData) ls

theorem assignLine_spec (l : KrakenLine) (c : Int × Int)
    (hc : center l.boundary = some c) (rs : List BlsRegion) :
    ∃ rs2, assignLine rs l = .ok rs2 ∧ rs2.length = rs.length ∧
      ∀ i (hi : i < rs2.length) (hj : i < rs.length),
        (rs2.get ⟨i, hi⟩).rtype = (rs.get ⟨i, hj⟩).rtype ∧
        (rs2.get ⟨i, hi⟩).coords = (rs.get ⟨i, hj⟩).coords ∧
        (rs2.get ⟨i, hi⟩).lines = (rs.get ⟨i, hj⟩).lines ++
          (if findFirstIdx (fun poly => polyContains poly c)
              (rs.map (fun r => r.coords)) = some i then [l] else []) := by
  induction rs with
  | nil =>
    exact ⟨[], rfl, rfl, fun i hi hj => absurd hj (by simp at hj)⟩
  | cons r rest ih =>
    by_cases hcont : polyContains r.coords c = true
    · refine ⟨{ r with lines := r.lines ++ [l] } :: rest, ?_, by simp, ?_⟩
      · unfold assignLine
        simp [hc, hcont]
      · intro i hi hj
        cases i with
        | zero =>
          refine ⟨rfl, rfl, ?_⟩
          simp [findFirstIdx, hcont]
        | succ j =>
          refine ⟨rfl, rfl, ?_⟩
          have hnone : findFirstIdx (fun poly => polyContains poly c)
              ((r :: rest).map (fun r => r.coords)) ≠ some (j + 1) := by
            simp [findFirstIdx, hcont]
          rw [if_neg hnone]
          simp
    · obtain ⟨rest2, heq, hlen, hpt⟩ := ih
      refine ⟨r :: rest2, ?_, by simp [hlen], ?_⟩
      · unfold assignLine
        simp only [hc]
        rw [if_neg hcont, heq]
      · intro i hi hj
        cases i with
        | zero =>
          refine ⟨rfl, rfl, ?_⟩
          have hnone : findFirstIdx (fun poly => polyContains poly c)
              ((r :: rest).map (fun r => r.coords)) ≠ some 0 := by
            simp [findFirstIdx, hcont]
          rw [if_neg hnone]
          simp
        | succ j =>
          have hj2 : j < rest.length := by simpa using hj
          have hi2 : j < rest2.length := by simpa using hi
          obtain ⟨h1, h2, h3⟩ := hpt j hi2 hj2
          refine ⟨h1, h2, ?_⟩
          simp only [List.get_cons_succ]
          rw [h3]
          congr 1
          have hshift : findFirstIdx (fun poly => polyContains poly c)
              ((r :: rest).map (fun r => r.coords)) =
              (findFirstIdx (fun poly => polyContains poly c)
                (rest.map (fun r => r.coords))).map (· + 1) := by
            simp [findFirstIdx, hcont]
          rw [hshift]
          rcases hidx : findFirstIdx (fun poly => polyContains poly c)
              (rest.map (fun r => r.coords)) with _ | k
          · rw [hidx]
            simp
          · rw [hidx]
            simp only [Option.map_some']
            by_cases hk : k = j
            · subst hk
              simp
            · rw [if_neg (by simpa using hk), if_neg (by
                simp only [Option.some_inj]
                omega)]

theorem map_coords_eq_of_pointwise (st1 st : List BlsRegion)
    (hlen : st1.length = st.length)
    (h : ∀ i (hi : i < st1.length) (hj : i < st.length),
      (st1.get ⟨i, hi⟩).coords = (st.get ⟨i, hj⟩).coords) :
    st1.map (fun r => r.coords) = st.map (fun r => r.coords) := by
  apply List.ext_get (by simp [hlen])
  intro i hi hj
  simp only [List.get_eq_getElem, List.getElem_map]
  have := h i (by simpa using hi) (by simpa using hj)
  simpa using this

theorem assignLines_spec (ls : List KrakenLine) (st : List BlsRegion)
    (hls : ∀ l ∈ ls, shoelaceZ l.boundary ≠ 0) :
    ∃ st2, assignLines st ls = .ok st2 ∧
      st2.length = st.length ∧
      ∀ i (hi : i < st2.length) (hj : i < st.length),
        (st2.get ⟨i, hi⟩).rtype = (st.get ⟨i, hj⟩).rtype ∧
        (st2.get ⟨i, hi⟩).coords = (st.get ⟨i, hj⟩).coords ∧
        (st2.get ⟨i, hi⟩).lines = (st.get ⟨i, hj⟩).lines ++
          ls.filter (fun l =>
            decide (assignedTo (st.map (fun r => r.coords)) l = some i)) := by
  induction ls generalizing st with
  | nil =>
    exact ⟨st, rfl, rfl, fun i hi hj => ⟨rfl, rfl, by simp⟩⟩
  | cons l ls ih =>
    obtain ⟨c, hc⟩ := center_isSome_of_shoelaceZ l.boundary (hls l (by simp))
    obtain ⟨st1, heq1, hlen1, hpt1⟩ := assignLine_spec l c hc st
    obtain ⟨st2, heq2, hlen2, hpt2⟩ := ih st1 (fun x hx => hls x (by simp [hx]))
    have hmapeq : st1.map (fun r => r.coords) = st.map (fun r => r.coords) :=
      map_coords_eq_of_pointwise st1 st hlen1
        (fun i hi hj => (hpt1 i hi hj).2.1)
    refine ⟨st2, ?_, hlen2.trans hlen1, ?_⟩
    · unfold assignLines
      rw [heq1]
      exact heq2
    · intro i hi hj
      have hj1 : i < st1.length := by omega
      obtain ⟨ha1, ha2, ha3⟩ := hpt1 i hj1 hj
      obtain ⟨hb1, hb2, hb3⟩ := hpt2 i hi hj1
      refine ⟨hb1.trans ha1, hb2.trans ha2, ?_⟩
      rw [hb3, hmapeq, ha3, List.append_assoc]
      congr 1
      have hassign : assignedTo (st.map (fun r => r.coords)) l =
          findFirstIdx (fun poly => polyContains poly c)
            (st.map (fun r => r.coords)) := by
        unfold assignedTo
        rw [hc]
      rw [List.filter_cons]
      by_cases hA : findFirstIdx (fun poly => polyContains poly c)
          (st.map (fun r => r.coords)) = some i
      · rw [if_pos hA, if_pos (by simp [hassign, hA])]
        simp
      · rw [if_neg hA, if_neg (by simp [hassign, hA])]
        simp

theorem buildRegions_lines_nil (classData : List (String × List (List (Int × Int))))
    (r : BlsRegion) (hr : r ∈ buildRegions classData) : r.lines = [] := by
  unfold buildRegions at hr
  simp only [List.mem_flatMap, List.mem_map] at hr
  obtain ⟨cd, _, coords, _, rfl⟩ := hr
  rfl

/-- C9. In the legacy line-to-region membership path (`_kraken_parser`,
modules/bls.py), each line is appended to the line list of exactly the
first region, in region-creation order, whose polygon contains the rounded
centroid of the line boundary polygon; a line whose boundary centroid is
contained in no region polygon ends up in no region's line list (dropped
silently). -/
theorem C9_first_match_line_assignment
    (classData : List (String × List (List (Int × Int)))) (ls : List KrakenLine)
    (hls : ∀ l ∈ ls, shoelaceZ l.boundary ≠ 0) :
    ∃ res, krakenParser classData ls = .ok res ∧
      res.length = (buildRegions classData).length ∧
      (∀ i (hi : i < res.length),
        (res.get ⟨i, hi⟩).lines = ls.filter (fun l =>
          decide (assignedTo ((buildRegions classData).map (fun r => r.coords)) l
            = some i))) ∧
      (∀ l ∈ ls,
        assignedTo ((buildRegions classData).map (fun r => r.coords)) l = none →
        ∀ r ∈ res, l ∉ r.lines) := by
  obtain ⟨res, heq, hlen, hpt⟩ := assignLines_spec ls (buildRegions classData) hls
  have hlines : ∀ i (hi : i < res.length),
      (res.get ⟨i, hi⟩).lines = ls.filter (fun l =>
        decide (assignedTo ((buildRegions classData).map (fun r => r.coords)) l
          = some i)) := by
    intro i hi
    have hj : i < (buildRegions classData).length := by omega
    have h3 := (hpt i hi hj).2.2
    rw [h3, buildRegions_lines_nil classData _ (List.get_mem _ _ hj),
      List.nil_append]
  refine ⟨res, heq, hlen, hlines, ?_⟩
  intro l hl hnone r hr hlin
  obtain ⟨i, rfl⟩ := List.mem_iff_get.mp hr
  rw [hlines i.1 i.2] at hlin
  have := List.of_mem_filter hlin
  simp only [decide_eq_true_eq] at this
  rw [hnone] at this
  exact Option.noConfusion this

/-- Witness for C9: one paragraph region 100 by 50 and one line whose
boundary square has centroid (15, 15), inside the region. -/
theorem C9_witness :
    (∀ l ∈ [KrakenLine.mk [((10 : Int), (25 : Int)), (90, 25)]
        [((10 : Int), (10 : Int)), (20, 10), (20, 20), (10, 20)]],
      shoelaceZ l.boundary ≠ 0) ∧
    ∃ res, krakenParser
        [("paragraph", [[((0 : Int), (0 : Int)), (100, 0), (100, 50), (0, 50)]])]
        [KrakenLine.mk [((10 : Int), (25 : Int)), (90, 25)]
          [((10 : Int), (10 : Int)), (20, 10), (20, 20), (10, 20)]] = .ok res ∧
      res.length = (buildRegions
        [("paragraph", [[((0 : Int), (0 : Int)), (100, 0), (100, 50), (0, 50)]])]).length ∧
      (∀ i (hi : i < res.length),
        (res.get ⟨i, hi⟩).lines =
          [KrakenLine.mk [((10 : Int), (25 : Int)), (90, 25)]
            [((10 : Int), (10 : Int)), (20, 10), (20, 20), (10, 20)]].filter (fun l =>
          decide (assignedTo ((buildRegions
            [("paragraph", [[((0 : Int), (0 : Int)), (100, 0), (100, 50), (0, 50)]])]).map
              (fun r => r.coords)) l = some i))) ∧
      (∀ l ∈ [KrakenLine.mk [((10 : Int), (25 : Int)), (90, 25)]
          [((10 : Int), (10 : Int)), (20, 10), (20, 20), (10, 20)]],
        assignedTo ((buildRegions
          [("paragraph", [[((0 : Int), (0 : Int)), (100, 0), (100, 50), (0, 50)]])]).map
            (fun r => r.coords)) l = none →
        ∀ r ∈ res, l ∉ r.lines) :=
  ⟨by decide, C9_first_match_line_assignment _ _ (by decide)⟩

/-!
Document model (pagexml/element.py, pagexml/page.py, pagexml/pxml.py).
Elements carry an `oid` tag modelling CPython object identity: Element
defines no custom equality, so `==` (and list.remove) compare identity.
-/

/-- Embedding of pagexml Element: type tag (the enum value string),
attribute mapping (insertion-ordered), optional text, ordered children. -/
inductive PXElement where
  | mk (oid : Nat) (etype : PStr) (attrs : List (PStr × PStr))
       (text : Option PStr) (children : List PXElement)

def PXElement.oid : PXElement → Nat
  | .mk o _ _ _ _ => o

def PXElement.etype : PXElement → PStr
  | .mk _ t _ _ _ => t

def PXElement.attrs : PXElement → List (PStr × PStr)
  | .mk _ _ a _ _ => a

def PXElement.text : PXElement → Option PStr
  | .mk _ _ _ tx _ => tx

def PXElement.children : PXElement → List PXElement
  | .mk _ _ _ _ cs => cs

/-- Python dict lookup on the insertion-ordered attribute list. -/
def lookupAttr (attrs : List (PStr × PStr)) (key : PStr) : Option PStr :=
  (attrs.find? (fun kv => kv.1 == key)).map (fun kv => kv.2)

/-- Needle-is-prefix test on character lists. -/
def startsWithL (needle hay : PStr) : Bool :=
  match needle, hay with
  | [], _ => true
  | _ :: _, [] => false
  | a :: as, b :: bs => a == b && startsWithL as bs

/-- Substring containment, modelling the Python `in` operator on str. -/
def isSubstrL (needle : PStr) : PStr → Bool
  | [] => needle.isEmpty
  | c :: rest => startsWithL needle (c :: rest) || isSubstrL needle rest

/-- Embedding of Element.is_region (element.py): the substring "Region"
occurs in the element type value. -/
def PXElement.isRegionB (e : PXElement) : Bool :=
  isSubstrL "Region".toList e.etype

/-- CPython list.remove on an element list: delete the first entry equal to
the given one; Element equality is identity, modelled by the oid. (CPython
raises ValueError when no entry matches; the loop below only removes
elements read from the list, so that case is unreachable there.) -/
def pyListRemove (xs : List PXElement) (o : Nat) : List PXElement :=
  match xs with
  | [] => []
  | x :: rest => if x.oid = o then rest else x :: pyListRemove rest o

theorem pyListRemove_length_le (xs : List PXElement) (o : Nat) :
    (pyListRemove xs o).length ≤ xs.length := by
  induction xs with
  | nil => simp [pyListRemove]
  | cons x rest ih =>
    unfold pyListRemove
    by_cases h : x.oid = o
    · simp [h]
    · simp only [h, if_false, List.length_cons]
      have hih := ih
      omega

/-- The for-loop of pxml_remove_empty_regions (modules/postproc.py):
CPython list iteration reads the element at the current cursor, the body
may call regions.remove(region), and the cursor always advances — so a
removal shifts the next element under the cursor and it is skipped. -/
def removeEmptyLoop (xs : List PXElement) (i : Nat) : List PXElement :=
  if h : i < xs.length then
    if (xs.get ⟨i, h⟩).children.length ≤ 1 then
      removeEmptyLoop (pyListRemove xs (xs.get ⟨i, h⟩).oid) (i + 1)
    else
      removeEmptyLoop xs (i + 1)
  else xs
termination_by xs.length - i
decreasing_by
  all_goals first
  | omega
  | (have hle := pyListRemove_length_le xs (xs.get ⟨i, h⟩).oid
     omega)

/-- Embedding of pxml_remove_empty_regions (modules/postproc.py). Result:
(Python return value, final state of the caller's list). With
inplace=False the list is copied and the filtered copy returned (caller's
list untouched); with inplace=True the caller's list is mutated and None
returned. -/
def pxmlRemoveEmptyRegions (regions : List PXElement) (inplace : Bool) :
    Option (List PXElement) × List PXElement :=
  if inplace then (none, removeEmptyLoop regions 0)
  else (some (removeEmptyLoop regions 0), regions)

/-- A Coords child element. -/
def coordsEl (o : Nat) : PXElement := .mk o "Coords".toList [] none []

/-- A region whose only child is its Coords element (zero lines). -/
def emptyRegionEl (o co : Nat) : PXElement :=
  .mk o "TextRegion".toList [] none [coordsEl co]

/-- A TextLine child element. -/
def lineEl (o : Nat) : PXElement := .mk o "TextLine".toList [] none []

/-- A region with a Coords child and one line child. -/
def fullRegionEl (o co lo : Nat) : PXElement :=
  .mk o "TextRegion".toList [] none [coordsEl co, lineEl lo]

/-- C7. pxml_remove_empty_regions removes from a list while iterating over
it, so the cursor skips the element after each removal: on a list of two
adjacent empty regions the second empty region survives, contradicting
"deletes exactly those regions whose only child is their Coords element"
(and the function's own docstring). On the claim's own scenario — one
empty region followed by one region with a line — it does behave as
claimed, returning only the latter (and, with inplace=False, leaving the
caller's list untouched). -/
theorem C7_remove_empty_regions_skips_after_removal :
    pxmlRemoveEmptyRegions [emptyRegionEl 1 2, emptyRegionEl 3 4] false =
      (some [emptyRegionEl 3 4], [emptyRegionEl 1 2, emptyRegionEl 3 4]) ∧
    (emptyRegionEl 3 4).children.length ≤ 1 ∧
    pxmlRemoveEmptyRegions [emptyRegionEl 1 2, fullRegionEl 3 4 5] false =
      (some [fullRegionEl 3 4 5], [emptyRegionEl 1 2, fullRegionEl 3 4 5]) := by
  refine ⟨?_, by simp [emptyRegionEl, coordsEl, PXElement.children], ?_⟩
  · simp [pxmlRemoveEmptyRegions, removeEmptyLoop, pyListRemove, emptyRegionEl,
      coordsEl, PXElement.children, PXElement.oid]
  · simp [pxmlRemoveEmptyRegions, removeEmptyLoop, pyListRemove, emptyRegionEl,
      fullRegionEl, coordsEl, lineEl, PXElement.children, PXElement.oid]

/-- Embedding of a pagexml Page (page.py): attributes, reading order
(region ids), ordered element list. -/
structure PXPage where
  attrs : List (PStr × PStr)
  ro : List PStr
  elements : List PXElement

/-- Embedding of Page.add_element (page.py). The source guard is
`if element.is_region and reading_order:` — `is_region` is referenced
without calling it, so it is a bound-method object and always truthy; the
guard therefore reduces to `reading_order` alone, and the id of ANY added
element is appended (or inserted) into the reading order. A missing id
attribute raises KeyError (after the element was appended). -/
def pageAddElement (p : PXPage) (el : PXElement) (index : Option Nat)
    (reading_order : Bool) : Except PyErr PXPage :=
  match index with
  | none =>
    if reading_order then
      match lookupAttr el.attrs "id".toList with
      | some i => .ok { p with elements := p.elements ++ [el], ro := p.ro ++ [i] }
      | none => .error .keyError
    else .ok { p with elements := p.elements ++ [el] }
  | some k =>
    if reading_order then
      match lookupAttr el.attrs "id".toList with
      | some i => .ok { p with elements := p.elements.insertIdx k el,
                               ro := p.ro.insertIdx k i }
      | none => .error .keyError
    else .ok { p with elements := p.elements.insertIdx k el }

/-- Zero-padding to width 3, as the format f"r_{rid:03d}" does. -/
def pad3 (s : PStr) : PStr := List.replicate (3 - s.length) '0' ++ s

/-- Region id generated by bls_workflow: r_ followed by the zero-padded
region counter. -/
def blsRegionId (rid : Nat) : PStr := 'r' :: '_' :: pad3 (natToChars rid)

/-- Line id generated by bls_workflow: l_ followed by the zero-padded line
counter. -/
def blsLineId (lid : Nat) : PStr := 'l' :: '_' :: pad3 (natToChars lid)

theorem blsRegionId_inj : Function.Injective blsRegionId := by
  intro m n h
  unfold blsRegionId pad3 at h
  have h2 : List.replicate (3 - (natToChars m).length) '0' ++ natToChars m =
      List.replicate (3 - (natToChars n).length) '0' ++ natToChars n := by
    injection h with _ h3
    injection h3
  have hm := parseDigits_replicate_natToChars (3 - (natToChars m).length) m
  have hn := parseDigits_replicate_natToChars (3 - (natToChars n).length) n
  rw [h2] at hm
  rw [hm] at hn
  injection hn

/-- TextLine elements built by the inner loop of bls_workflow: each line
gets a Coords child from its mask polygon and a Baseline child from its
baseline (both always present: `_kraken_parser` builds them with
Polygon.from_kraken_coords), with a running line counter. -/
def blsLineElems (lid : Nat) : List KrakenLine → List PXElement × Nat
  | [] => ([], lid)
  | l :: ls =>
    (PXElement.mk 0 "TextLine".toList [("id".toList, blsLineId lid)] none
        [PXElement.mk 0 "Coords".toList
          [("points".toList, toPageCoords l.boundary)] none [],
         PXElement.mk 0 "Baseline".toList
          [("points".toList, toPageCoords l.baseline)] none []]
      :: (blsLineElems (lid + 1) ls).1,
     (blsLineElems (lid + 1) ls).2)

/-- TextRegion element built by bls_workflow for one parsed region: type
and id attributes, a Coords child with the region polygon, then the line
children. -/
def blsRegionElem (rid lid : Nat) (rd : BlsRegion) : PXElement × Nat :=
  (PXElement.mk 0 "TextRegion".toList
      [("type".toList, rd.rtype.toList), ("id".toList, blsRegionId rid)] none
      (PXElement.mk 0 "Coords".toList
          [("points".toList, toPageCoords rd.coords)] none []
        :: (blsLineElems lid rd.lines).1),
   (blsLineElems lid rd.lines).2)

/-- Region loop of bls_workflow (modules/bls.py): regions from the parsed
kraken result are added to the page in order via page.create_element,
which calls Page.add_element with reading_order left at its default True. -/
def blsLoop (page : PXPage) (rid lid : Nat) : List BlsRegion → Except PyErr PXPage
  | [] => .ok page
  | rd :: rest =>
    match pageAddElement page (blsRegionElem rid lid rd).1 none true with
    | .ok p2 => blsLoop p2 (rid + 1) (blsRegionElem rid lid rd).2 rest
    | .error e => .error e

/-- Page construction of bls_workflow: a fresh page (empty reading order,
no elements) filled with one TextRegion per parsed region. -/
def blsBuildPage (attrs0 : List (PStr × PStr)) (res : List BlsRegion) :
    Except PyErr PXPage :=
  blsLoop ⟨attrs0, [], []⟩ 0 0 res

theorem lookupAttr_regionElem (rid lid : Nat) (rd : BlsRegion) :
    lookupAttr (blsRegionElem rid lid rd).1.attrs "id".toList =
      some (blsRegionId rid) := rfl

theorem map_shift_range {α : Type} (f : Nat → α) (r n : Nat) :
    f r :: (List.range n).map (fun k => f (r + 1 + k)) =
      (List.range (n + 1)).map (fun k => f (r + k)) := by
  rw [List.range_succ_eq_map, List.map_cons, List.map_map]
  simp only [Nat.add_zero]
  congr 1
  apply List.map_congr_left
  intro k _
  simp only [Function.comp_apply]
  congr 1
  omega

theorem blsLoop_spec (res : List BlsRegion) :
    ∀ (page : PXPage) (rid lid : Nat), ∃ p2, blsLoop page rid lid res = .ok p2 ∧
      p2.attrs = page.attrs ∧
      p2.ro = page.ro ++ (List.range res.length).map (fun k => blsRegionId (rid + k)) ∧
      p2.elements.map (fun e => lookupAttr e.attrs "id".toList) =
        page.elements.map (fun e => lookupAttr e.attrs "id".toList) ++
          (List.range res.length).map (fun k => some (blsRegionId (rid + k))) ∧
      ∀ e ∈ p2.elements, e ∈ page.elements ∨ e.isRegionB = true := by
  induction res with
  | nil =>
    intro page rid lid
    exact ⟨page, rfl, rfl, by simp, by simp, fun e he => Or.inl he⟩
  | cons rd rest ih =>
    intro page rid lid
    obtain ⟨p2, heq, hattrs, hro, hids, hmem⟩ :=
      ih { page with elements := page.elements ++ [(blsRegionElem rid lid rd).1],
                     ro := page.ro ++ [blsRegionId rid] }
        (rid + 1) (blsRegionElem rid lid rd).2
    refine ⟨p2, ?_, hattrs, ?_, ?_, ?_⟩
    · unfold blsLoop pageAddElement
      rw [lookupAttr_regionElem]
      exact heq
    · rw [hro]
      show page.ro ++ [blsRegionId rid] ++
          (List.range rest.length).map (fun k => blsRegionId (rid + 1 + k)) =
        page.ro ++ (List.range (rest.length + 1)).map (fun k => blsRegionId (rid + k))
      rw [List.append_assoc]
      congr 1
      exact map_shift_range blsRegionId rid rest.length
    · rw [hids]
      show (page.elements ++ [(blsRegionElem rid lid rd).1]).map
            (fun e => lookupAttr e.attrs "id".toList) ++
          (List.range rest.length).map (fun k => some (blsRegionId (rid + 1 + k))) =
        page.elements.map (fun e => lookupAttr e.attrs "id".toList) ++
          (List.range (rest.length + 1)).map (fun k => some (blsRegionId (rid + k)))
      rw [List.map_append, List.append_assoc]
      congr 1
      exact map_shift_range (fun k => some (blsRegionId k)) rid rest.length
    · intro e he
      rcases hmem e he with hm | hr
      · rcases List.mem_append.mp hm with hm2 | hm2
        · exact Or.inl hm2
        · right
          have : e = (blsRegionElem rid lid rd).1 := by simpa using hm2
          rw [this]
          rfl
      · exact Or.inr hr

theorem count_eq_one_of_nodup_mem (l : List PStr) (hl : l.Nodup) (a : PStr)
    (ha : a ∈ l) : l.count a = 1 := by
  induction l with
  | nil => simp at ha
  | cons x xs ih =>
    rcases List.mem_cons.mp ha with rfl | hmem
    · have hx : xs.count a = 0 :=
        List.count_eq_zero.mpr (List.nodup_cons.mp hl).1
      simp [List.count_cons, hx]
    · have hne : a ≠ x := by
        intro h
        subst h
        exact (List.nodup_cons.mp hl).1 hmem
      rw [List.count_cons, ih (List.nodup_cons.mp hl).2 hmem]
      have hxa : ¬x = a := fun h => hne (Eq.symm h)
      simp [hxa]

/-- C8 (amended). After bls_workflow builds a page from the parsed
segmentation result (regions not suppressed — this adapter path always
emits per-class regions), every element of the page is region-typed and
its id appears exactly once in the page's reading order. The Page data
model itself does not maintain this invariant under arbitrary mutation:
add_element with reading_order=False appends a region without registering
it, so a Page with a non-empty reading order can contain a region whose id
is absent (see the counterexample). -/
theorem C8_bls_reading_order_complete (attrs0 : List (PStr × PStr))
    (res : List BlsRegion) :
    ∃ p, blsBuildPage attrs0 res = .ok p ∧
      p.ro = (List.range res.length).map blsRegionId ∧
      (∀ e ∈ p.elements, e.isRegionB = true) ∧
      (∀ e ∈ p.elements, ∀ i, lookupAttr e.attrs "id".toList = some i →
        p.ro.count i = 1) := by
  obtain ⟨p, heq, -, hro, hids, hmem⟩ :=
    blsLoop_spec res ⟨attrs0, [], []⟩ 0 0
  have hro2 : p.ro = (List.range res.length).map blsRegionId := by
    rw [hro]
    show (List.range res.length).map (fun k => blsRegionId (0 + k)) = _
    apply List.map_congr_left
    intro k _
    congr 1
    omega
  have hnodup : ((List.range res.length).map blsRegionId).Nodup :=
    (List.nodup_range res.length).map blsRegionId_inj
  refine ⟨p, heq, hro2, ?_, ?_⟩
  · intro e he
    rcases hmem e he with hm | hr
    · simp at hm
    · exact hr
  · intro e he i hi
    have hmm : some i ∈ p.elements.map (fun e => lookupAttr e.attrs "id".toList) := by
      rw [← hi]
      exact List.mem_map_of_mem _ he
    rw [hids] at hmm
    simp only [List.nil_append, List.map_nil, List.mem_map, List.mem_range] at hmm
    obtain ⟨k, hk, hsome⟩ := hmm
    have hik : i = blsRegionId k := by
      have h0 : some (blsRegionId (0 + k)) = some i := hsome
      have := Option.some_inj.mp h0
      rw [← this]
      congr 1
      omega
    rw [hro2, hik]
    apply count_eq_one_of_nodup_mem _ hnodup
    exact List.mem_map_of_mem _ (List.mem_range.mpr hk)

/-- Region element with id ra, object identity 1. -/
def c8RegionA : PXElement :=
  .mk 1 "TextRegion".toList [("id".toList, "ra".toList)] none []

/-- Region element with id rb, object identity 2. -/
def c8RegionB : PXElement :=
  .mk 2 "TextRegion".toList [("id".toList, "rb".toList)] none []

/-- Page state after adding region ra with reading_order=True. -/
def c8Page1 : PXPage := ⟨[], ["ra".toList], [c8RegionA]⟩

/-- Page state after further adding region rb with reading_order=False. -/
def c8Page2 : PXPage := ⟨[], ["ra".toList], [c8RegionA, c8RegionB]⟩

/-- Counterexample to the universally quantified half of C8: the Page API
can produce a page with a non-empty reading order containing a
region-typed element whose id does not appear in the reading order at all
(add_element with reading_order=False). -/
theorem C8_counterexample :
    pageAddElement ⟨[], [], []⟩ c8RegionA none true = .ok c8Page1 ∧
    pageAddElement c8Page1 c8RegionB none false = .ok c8Page2 ∧
    c8Page2.ro ≠ [] ∧
    c8Page2.elements = [c8RegionA, c8RegionB] ∧
    c8RegionB.isRegionB = true ∧
    lookupAttr c8RegionB.attrs "id".toList = some "rb".toList ∧
    c8Page2.ro.count "rb".toList = 0 :=
  ⟨rfl, rfl, by simp [c8Page2], rfl, rfl, rfl, by decide⟩

/-!
Serialization of the document container (pagexml/pxml.py). The XML etree
produced by lxml is modelled as a simple node tree; datetime.now() is an
external clock passed in as `now`.
-/

/-- Model of an lxml etree element: tag, attributes, optional text,
children. -/
inductive XTree where
  | mk (tag : PStr) (attrs : List (PStr × PStr)) (text : Option PStr)
       (children : List XTree)

/-- Embedding of Element.to_etree (element.py): tag from the type value,
the attribute mapping, the optional text, recursively converted
children. -/
def elementToEtree : PXElement → XTree
  | .mk _ t attrs tx children =>
    .mk t attrs tx (children.attach.map (fun c => elementToEtree c.1))
decreasing_by
  simp_wf
  have hsz := List.sizeOf_lt_of_mem c.2
  omega

/-- Embedding of Page.to_etree (page.py): a Page node with the page
attributes; a ReadingOrder/OrderedGroup block listing the reading order as
RegionRefIndexed entries when the reading order is non-empty; then the
converted elements. -/
def pageToEtree (p : PXPage) : XTree :=
  .mk "Page".toList p.attrs none
    ((if p.ro.length > 0 then
        [XTree.mk "ReadingOrder".toList [] none
          [XTree.mk "OrderedGroup".toList [("id".toList, "g0".toList)] none
            (p.ro.enum.map (fun e =>
              XTree.mk "RegionRefIndexed".toList
                [("index".toList, natToChars e.1), ("regionRef".toList, e.2)]
                none []))]]
      else [])
      ++ p.elements.map elementToEtree)

/-- Embedding of the PageXML container (pxml.py): creator/created/
last-change metadata and the page list. -/
structure PageXMLDoc where
  creator : String
  created : String
  lastChange : String
  pages : List PXPage

/-- Embedding of PageXML.to_etree (pxml.py). The method first calls
last_change_now(), overwriting the LastChange field with the current time
(`now`, the external clock), then builds the root PcGts node (namespace
and schema-location declarations abstracted as `schemaAttrs`), the
Metadata block with Creator, Created, LastChange text nodes, and one child
per page. Returns the mutated document state together with the tree. -/
def pxmlToEtree (schemaAttrs : List (PStr × PStr)) (now : String)
    (doc : PageXMLDoc) : PageXMLDoc × XTree :=
  ({ doc with lastChange := now },
   XTree.mk "PcGts".toList schemaAttrs none
     (XTree.mk "Metadata".toList [] none
        [XTree.mk "Creator".toList [] (some doc.creator.toList) [],
         XTree.mk "Created".toList [] (some doc.created.toList) [],
         XTree.mk "LastChange".toList [] (some now.toList) []]
       :: doc.pages.map pageToEtree))

/-- Embedding of PageXML.to_xml (pxml.py): serializing to a file goes
through to_etree, so it performs the same state update; the byte encoding
of the tree is not modelled. -/
def pxmlToXml (schemaAttrs : List (PStr × PStr)) (now : String)
    (doc : PageXMLDoc) : PageXMLDoc × XTree :=
  pxmlToEtree schemaAttrs now doc

/-- C10. Serializing a PageXML document (to_etree, hence also to_xml)
first overwrites the document's LastChange timestamp with the current
time, leaves Creator, Created and the page list unchanged, and writes the
new time into the serialized Metadata block; consequently an unmodified
load-then-serialize round trip changes the LastChange field whenever the
current time differs from the stored one. -/
theorem C10_serialize_overwrites_lastchange (schemaAttrs : List (PStr × PStr))
    (now : String) (doc : PageXMLDoc) (hne : now ≠ doc.lastChange) :
    (pxmlToEtree schemaAttrs now doc).1.creator = doc.creator ∧
    (pxmlToEtree schemaAttrs now doc).1.created = doc.created ∧
    (pxmlToEtree schemaAttrs now doc).1.pages = doc.pages ∧
    (pxmlToEtree schemaAttrs now doc).1.lastChange = now ∧
    (pxmlToEtree schemaAttrs now doc).1.lastChange ≠ doc.lastChange ∧
    pxmlToXml schemaAttrs now doc = pxmlToEtree schemaAttrs now doc ∧
    (pxmlToEtree schemaAttrs now doc).2 =
      XTree.mk "PcGts".toList schemaAttrs none
        (XTree.mk "Metadata".toList [] none
          [XTree.mk "Creator".toList [] (some doc.creator.toList) [],
           XTree.mk "Created".toList [] (some doc.created.toList) [],
           XTree.mk "LastChange".toList [] (some now.toList) []]
          :: doc.pages.map pageToEtree) :=
  ⟨rfl, rfl, rfl, rfl, hne, rfl, rfl⟩

/-- Witness for C10 at a concrete document and clock value. -/
theorem C10_witness :
    ("2024-06-01T12:00:00" ≠ "2024-01-01T00:00:00") ∧
    ((pxmlToEtree [] "2024-06-01T12:00:00"
        ⟨"octopy", "2024-01-01T00:00:00", "2024-01-01T00:00:00", []⟩).1.lastChange =
      "2024-06-01T12:00:00" ∧
     (pxmlToEtree [] "2024-06-01T12:00:00"
        ⟨"octopy", "2024-01-01T00:00:00", "2024-01-01T00:00:00", []⟩).1.lastChange ≠
      "2024-01-01T00:00:00") :=
  ⟨by decide,
   (C10_serialize_overwrites_lastchange [] "2024-06-01T12:00:00"
      ⟨"octopy", "2024-01-01T00:00:00", "2024-01-01T00:00:00", []⟩
      (by decide)).2.2.2.1,
   (C10_serialize_overwrites_lastchange [] "2024-06-01T12:00:00"
      ⟨"octopy", "2024-01-01T00:00:00", "2024-01-01T00:00:00", []⟩
      (by decide)).2.2.2.2.1⟩

/-!
Region-shrink engine (src/octopy/shrink.py and src/octopy/util.py).
OpenCV and shapely are external collaborators: their operations are fields
of an ExtOps record, and the facts the theorems need about them (contracts
documented by those libraries) appear as hypotheses.
-/

/-- 8-bit grayscale image: shape (rows, cols) and a pixel function. -/
structure Img where
  h : Nat
  w : Nat
  pix : Nat → Nat → Nat

/-- Bitwise NOT of an 8-bit image (shrink.py: `~cv2.imread(...)`). -/
def invertImg (img : Img) : Img :=
  ⟨img.h, img.w, fun i j => 255 - img.pix i j⟩

/-- One row of the cv2.connectedComponentsWithStats stats array:
bounding-box left, top, width, height and pixel area. Row 0 is always the
background label. -/
structure CCStat where
  x : Nat
  y : Nat
  w : Nat
  h : Nat
  area : Nat
deriving DecidableEq, Repr

/-- Exterior ring of a shapely polygon, rational coordinates (buffering
produces non-integer coordinates). -/
abbrev SPoly := List (Rat × Rat)

/-- Result geometry of a shapely set operation. -/
inductive SGeometry where
  | polygon (p : SPoly)
  | multiPolygon (ps : List SPoly)
  | other

/-- External image-processing and geometry collaborators used by the
shrink engine (cv2, shapely, scipy). -/
structure ExtOps where
  fillPoly : Nat → Nat → List (Int × Int) → Img
  ccStats : Img → List CCStat
  dilate : Img → Nat → Nat → Img
  morphClose : Img → Nat → Nat → Img
  findContours : Img → List (List (Int × Int))
  contourArea : List (Int × Int) → Rat
  buffer : SPoly → Int → SPoly
  polyArea : SPoly → Rat
  unaryUnion : List SPoly → SGeometry

/-- Embedding of util.mask_image: rasterize the polygon into a 255-mask
(cv2.fillPoly) and bitwise-AND it with the image. -/
def maskImage (ops : ExtOps) (image : Img) (maskPoly : List (Int × Int)) : Img :=
  ⟨image.h, image.w,
   fun i j => Nat.land (image.pix i j) ((ops.fillPoly image.h image.w maskPoly).pix i j)⟩

/-- Insertion step of a sort by contour area, descending (the order
util.region_contours returns). -/
def insertByAreaDesc (area : List (Int × Int) → Rat) (c : List (Int × Int)) :
    List (List (Int × Int)) → List (List (Int × Int))
  | [] => [c]
  | d :: ds => if area d ≤ area c then c :: d :: ds else d :: insertByAreaDesc area c ds

/-- Embedding of util.region_contours: external contours of the image
(cv2.findContours RETR_EXTERNAL), sorted by area in descending order. -/
def regionContours (ops : ExtOps) (img : Img) : List (List (Int × Int)) :=
  (ops.findContours img).foldr (insertByAreaDesc ops.contourArea) []

/-- Insertion step of an ascending sort on rationals. -/
def insertSorted (x : Rat) : List Rat → List Rat
  | [] => [x]
  | y :: ys => if x ≤ y then x :: y :: ys else y :: insertSorted x ys

/-- Ascending insertion sort on rationals (np.median sorts its input). -/
def sortRats (l : List Rat) : List Rat := l.foldr insertSorted []

/-- Model of numpy median: sort and take the middle element, or the mean
of the two middle elements for an even count; the median of the empty
array is NaN, modelled as none. -/
def pyMedian (l : List Rat) : Option Rat :=
  match l with
  | [] => none
  | _ =>
    match (sortRats l)[(sortRats l).length / 2]?,
          (sortRats l)[(sortRats l).length / 2 - 1]? with
    | some b, some a =>
      if (sortRats l).length % 2 = 1 then some b else some ((a + b) / 2)
    | some b, none => some b
    | _, _ => none

/-- Embedding of util.estimate_scales. `stats` always contains at least
the background row (cv2 labels the background as component 0), so
`len(stats) > 0` is always true and the `(25, 25)` fallback is dead code;
with zero foreground components the median is taken over an empty slice
(NaN) and `round(NaN)` raises ValueError. -/
def estimateScales (ccStats : Img → List CCStat) (image : Img) :
    Except PyErr (Nat × Nat) :=
  if (ccStats image).length > 0 then
    match pyMedian (((ccStats image).drop 1).map (fun s => (s.w : Rat))),
          pyMedian (((ccStats image).drop 1).map (fun s => (s.h : Rat))) with
    | some mw, some mh =>
      .ok ((max 1 (pyRound mw)).toNat, (max 1 (pyRound mh)).toNat)
    | _, _ => .error .valueError
  else .ok (25, 25)

/-- Embedding of the shapely Polygon constructor applied to a cv2 contour
(shrink.py line 145): fewer than 3 coordinates raise ValueError. -/
def shapelyPolygonOf (contour : List (Int × Int)) : Except PyErr SPoly :=
  if contour.length < 3 then .error .valueError
  else .ok (contour.map (fun p => ((p.1 : Rat), (p.2 : Rat))))

/-- Embedding of validate_polygons (shrink.py). After the unary union, the
source reads `polygons = list[merged_geom]` — subscription of the builtin
`list` type, producing a typing generic alias, instead of a call
`list(...)`; the immediately following iteration over that alias raises
TypeError, so the whole MST/connector-line branch (lines 46-85) is
unreachable and the non-Polygon case always raises. -/
def validatePolygons (ops : ExtOps) (polys : List SPoly) :
    Except PyErr (Option SPoly) :=
  match ops.unaryUnion polys with
  | .polygon p => .ok (some p)
  | _ => .error .typeError

/-- Truncation toward zero, the numpy int32 cast of float coordinates. -/
def ratTrunc (q : Rat) : Int := if 0 ≤ q then ⌊q⌋ else ⌈q⌉

/-- Serialization of a shapely exterior ring after the int32 cast, via the
same points-string format (util.to_points). -/
def sPolyToPoints (p : SPoly) : PStr :=
  toPageCoords (p.map (fun q => (ratTrunc q.1, ratTrunc q.2)))

/-- Embedding of util.from_points: split on spaces, split each pair on the
comma and read entries 0 and 1 with int() — fewer than two entries raise
IndexError, malformed numbers ValueError. -/
def utilFromPoints (s : PStr) : Except PyErr (List (Int × Int)) :=
  (pySplit ' ' s).mapM (fun pair =>
    match pySplit ',' pair with
    | [] => .error .indexError
    | [_] => .error .indexError
    | a :: b :: _ =>
      match pyInt a, pyInt b with
      | some x, some y => .ok ((x : Int), (y : Int))
      | _, _ => .error .valueError)

/-- A region of the pypxml document as the shrink engine sees it: id, type
value string, and the points attribute of its Coords element (none when
the region has no Coords child). -/
structure PxRegion where
  id : String
  rtype : String
  coords : Option PStr

/-- The pypxml document: declared pixel size and regions. -/
structure PxDoc where
  width : Nat
  height : Nat
  regions : List PxRegion

/-- Per-region body of the region_shrink loop (shrink.py lines 116-159).
Skips filtered-out region types and regions without Coords; parses the
points; masks the inverted image; estimates glyph scales for Text and
Separator regions (fixed (25,25) otherwise); dilates and closes; if the
total contour area is zero leaves the region unchanged with a warning;
otherwise buffers by padding - glyph_width, discards zero-area results,
merges via validate_polygons and overwrites the Coords points. Only
AssertionError is caught by the source's try/except; other exceptions
propagate. -/
def processRegion (ops : ExtOps) (img2 : Img) (padding : Int) (hs vs : Nat)
    (vrs : List String) (r : PxRegion) : Except PyErr PxRegion :=
  if vrs ≠ [] ∧ ¬vrs.contains r.rtype then .ok r
  else
    match r.coords with
    | none => .ok r
    | some pts =>
      match utilFromPoints pts with
      | .error e => .error e
      | .ok poly =>
        match (if r.rtype = "TextRegion" ∨ r.rtype = "SeparatorRegion"
               then estimateScales ops.ccStats (maskImage ops img2 poly)
               else .ok (25, 25)) with
        | .error e => .error e
        | .ok gwh =>
          if ((regionContours ops
                (ops.morphClose (ops.dilate (maskImage ops img2 poly) gwh.1 2)
                  (gwh.2 * vs) (gwh.1 * hs))).map ops.contourArea).sum = 0 then
            .ok r
          else
            match (regionContours ops
                (ops.morphClose (ops.dilate (maskImage ops img2 poly) gwh.1 2)
                  (gwh.2 * vs) (gwh.1 * hs))).mapM shapelyPolygonOf with
            | .error e => .error e
            | .ok polys =>
              match (polys.map (fun p => ops.buffer p (padding - gwh.1))).filter
                  (fun p => decide (0 < ops.polyArea p)) with
              | [] => .ok r
              | b :: bs =>
                match validatePolygons ops (b :: bs) with
                | .error .assertionError => .ok r
                | .error e => .error e
                | .ok none => .ok r
                | .ok (some p) => .ok { r with coords := some (sPolyToPoints p) }

/-- Embedding of region_shrink (shrink.py): load and invert the image,
check the declared page size against the image shape (ValueError on
mismatch, before any region is processed), then process the regions in
order; an uncaught per-region exception aborts the whole operation. -/
def regionShrink (ops : ExtOps) (doc : PxDoc) (raw : Img) (padding : Int)
    (hs vs : Nat) (vrs : List String) : Except PyErr PxDoc :=
  if (invertImg raw).h ≠ doc.height ∨ (invertImg raw).w ≠ doc.width then
    .error .valueError
  else
    match doc.regions.mapM (processRegion ops (invertImg raw) padding hs vs vrs) with
    | .ok rs => .ok { doc with regions := rs }
    | .error e => .error e

theorem estimateScales_singleton (ccStats : Img → List CCStat) (image : Img)
    (row : CCStat) (hcc : ccStats image = [row]) :
    estimateScales ccStats image = .error .valueError := by
  unfold estimateScales
  rw [hcc]
  simp [pyMedian]

/-- C4. With zero foreground components the stats array still holds the
background row, so the source's `len(stats) > 0` guard is true and the
(25, 25) fallback is dead code: the medians are taken over the empty
slice stats[1:], i.e. NaN, and round(NaN) raises ValueError instead of
returning the default. -/
theorem C4_estimate_scales_dead_fallback (ccStats : Img → List CCStat)
    (image : Img) (row : CCStat) (hcc : ccStats image = [row]) :
    estimateScales ccStats image = .error .valueError ∧
      estimateScales ccStats image ≠ .ok (25, 25) := by
  rw [estimateScales_singleton ccStats image row hcc]
  exact ⟨rfl, by simp⟩

/-- Concrete external-operations instance for witnesses. -/
def trivOps : ExtOps where
  fillPoly := fun h w _ => ⟨h, w, fun _ _ => 0⟩
  ccStats := fun _ => [⟨0, 0, 5, 5, 25⟩]
  dilate := fun im _ _ => im
  morphClose := fun im _ _ => im
  findContours := fun _ => []
  contourArea := fun _ => 0
  buffer := fun p _ => p
  polyArea := fun _ => 0
  unaryUnion := fun ps =>
    match ps with
    | [p] => .polygon p
    | _ => .multiPolygon ps

/-- Witness for C4: a connected-components oracle that returns only the
background row (zero foreground components). -/
theorem C4_witness :
    trivOps.ccStats ⟨4, 4, fun _ _ => 0⟩ = [⟨0, 0, 5, 5, 25⟩] ∧
      (estimateScales trivOps.ccStats ⟨4, 4, fun _ _ => 0⟩ = .error .valueError ∧
       estimateScales trivOps.ccStats ⟨4, 4, fun _ _ => 0⟩ ≠ .ok (25, 25)) :=
  ⟨rfl, C4_estimate_scales_dead_fallback trivOps.ccStats ⟨4, 4, fun _ _ => 0⟩
    ⟨0, 0, 5, 5, 25⟩ rfl⟩

/-- C3. A mismatch between the declared page size and the loaded image
shape makes region_shrink raise immediately (the source prints an error
and raises ValueError), before any region is processed — the document,
including every region's Coords, is arbitrary here and no output document
is produced. -/
theorem C3_size_mismatch_fatal (ops : ExtOps) (doc : PxDoc) (raw : Img)
    (padding : Int) (hs vs : Nat) (vrs : List String)
    (hmm : raw.h ≠ doc.height ∨ raw.w ≠ doc.width) :
    regionShrink ops doc raw padding hs vs vrs = .error .valueError := by
  unfold regionShrink
  rw [if_pos]
  exact hmm

/-- Witness for C3: declared size 200 wide by 300 high, loaded image
300 rows by 210 columns. -/
theorem C3_witness :
    ((⟨300, 210, fun _ _ => 255⟩ : Img).h ≠ (⟨200, 300, []⟩ : PxDoc).height ∨
      (⟨300, 210, fun _ _ => 255⟩ : Img).w ≠ (⟨200, 300, []⟩ : PxDoc).width) ∧
    regionShrink trivOps ⟨200, 300, []⟩ ⟨300, 210, fun _ _ => 255⟩ 5 1 1 [] =
      .error .valueError :=
  ⟨by right; decide,
   C3_size_mismatch_fatal trivOps ⟨200, 300, []⟩ ⟨300, 210, fun _ _ => 255⟩
     5 1 1 [] (by right; decide)⟩

/-- C2. A TextRegion whose mask contains zero ink pixels: the masked
inverted image is all zero, cv2.connectedComponentsWithStats returns only
the background row (the hypothesis hcc states that documented contract),
and estimate_scales raises ValueError (median of an empty slice is NaN,
round(NaN) fails) before the contour-area check is ever reached — the
whole shrink run aborts with an exception instead of leaving the Coords
unchanged with a warning. -/
theorem C2_empty_mask_text_region_raises (ops : ExtOps) (raw : Img)
    (docW docH : Nat) (rid : String) (pts : PStr) (poly : List (Int × Int))
    (row : CCStat)
    (hdimh : raw.h = docH) (hdimw : raw.w = docW)
    (hraw : ∀ i j, raw.pix i j = 255)
    (hparse : utilFromPoints pts = .ok poly)
    (hcc : ∀ im : Img, (∀ i j, im.pix i j = 0) → ops.ccStats im = [row]) :
    regionShrink ops ⟨docW, docH, [⟨rid, "TextRegion", some pts⟩]⟩ raw 5 1 1 [] =
      .error .valueError := by
  have hz : ∀ i j, (maskImage ops (invertImg raw) poly).pix i j = 0 := by
    intro i j
    simp only [maskImage, invertImg, hraw, Nat.sub_self]
    show (0 : Nat) &&& _ = 0
    simp
  have hes : estimateScales ops.ccStats (maskImage ops (invertImg raw) poly) =
      .error .valueError :=
    estimateScales_singleton ops.ccStats _ row (hcc _ hz)
  have hproc : processRegion ops (invertImg raw) 5 1 1 []
      ⟨rid, "TextRegion", some pts⟩ = .error .valueError := by
    unfold processRegion
    rw [if_neg (by simp)]
    simp [hparse, hes]
  unfold regionShrink
  rw [if_neg (by simp [invertImg, hdimh, hdimw])]
  have hmap : List.mapM (processRegion ops (invertImg raw) 5 1 1 [])
      [(⟨rid, "TextRegion", some pts⟩ : PxRegion)] = .error .valueError := by
    unfold List.mapM List.mapM.loop
    rw [hproc]
    rfl
  rw [hmap]

/-- Witness for C2: a 2 by 2 all-white page image (zero ink), one
TextRegion covering it, and the connected-components oracle returning only
the background row. -/
theorem C2_witness :
    regionShrink trivOps ⟨2, 2, [⟨"r1", "TextRegion", some "0,0 2,0 2,2 0,2".toList⟩]⟩
      ⟨2, 2, fun _ _ => 255⟩ 5 1 1 [] = .error .valueError :=
  C2_empty_mask_text_region_raises trivOps ⟨2, 2, fun _ _ => 255⟩ 2 2 "r1"
    "0,0 2,0 2,2 0,2".toList [(0, 0), (2, 0), (2, 2), (0, 2)] ⟨0, 0, 5, 5, 25⟩
    rfl rfl (fun _ _ => rfl) rfl (fun _ _ => rfl)

/-- C1. When the unary union of the buffered fragments is not a single
Polygon (e.g. the fragments are disjoint), validate_polygons raises
TypeError at `polygons = list[merged_geom]` (a subscription of the builtin
list type instead of a list(...) call) before any centroid, spanning tree
or connector line is computed; region_shrink catches only AssertionError,
so the TypeError aborts the whole shrink run and no Coords is written. -/
theorem C1_validate_polygons_type_error (ops : ExtOps) (polys : List SPoly)
    (hu : ∀ p, ops.unaryUnion polys ≠ .polygon p) :
    validatePolygons ops polys = .error .typeError := by
  unfold validatePolygons
  rcases hcase : ops.unaryUnion polys with p | ps | _
  · exact absurd hcase (hu p)
  · rfl
  · rfl

/-- External-operations instance whose unary union models
shapely.ops.unary_union on pairwise disjoint polygons: the union of
several disjoint polygons is a MultiPolygon of the parts. -/
def disjointUnionOps : ExtOps :=
  { trivOps with unaryUnion := fun ps => .multiPolygon ps }

/-- Witness for C1: two disjoint unit squares (positive-area fragments
left after buffering); their union is a MultiPolygon, and
validate_polygons raises TypeError. -/
theorem C1_witness :
    (∀ p, disjointUnionOps.unaryUnion
        [[((0 : Rat), (0 : Rat)), (1, 0), (1, 1), (0, 1)],
         [((5 : Rat), (5 : Rat)), (6, 5), (6, 6), (5, 6)]] ≠ .polygon p) ∧
    validatePolygons disjointUnionOps
        [[((0 : Rat), (0 : Rat)), (1, 0), (1, 1), (0, 1)],
         [((5 : Rat), (5 : Rat)), (6, 5), (6, 6), (5, 6)]] = .error .typeError :=
  ⟨fun _ h => SGeometry.noConfusion h,
   C1_validate_polygons_type_error disjointUnionOps _
     (fun _ h => SGeometry.noConfusion h)⟩
